import Mathlib

/-!
Shallow embedding of the `cowboys` scalar computation graph
(`GraphNode.hpp`): a directed graph of nodes, each holding a default
scalar, an optional operator drawn from a fixed function set, an ordered
list of input nodes, a reverse list of dependent (output) nodes used for
cache invalidation, and a memoized output value with a validity flag.

The C++ heap of `shared_ptr<GraphNode>` objects is modelled as a total map
from node identifiers (`Nat`) to node records; `double` scalars are
modelled exactly over `Int` (every scalar in the verified properties is
an integer and every operation used on scalars — ring operations,
`min`/`max`, comparisons — is exact there); the four transcendental
primitives used by some operators (`std::sin`, `std::cos`, `std::exp`,
`std::sqrt`) are abstracted as an explicit parameter record, since no
verified property depends on their values.  Recursive routines that the C++ realises with
unbounded call stacks (`RecursiveInvalidateCache`, `GetOutput`) are given
an explicit fuel argument; theorems carry a sufficient-fuel hypothesis
mirroring the source's documented DAG precondition.
-/

namespace Cowboys

/-- The operator tags of the function set, one per free function of the
source (`Sum`, `And`, ..., `Sqrt`), in source order. -/
inductive NodeFun where
  | Sum
  | And
  | AnyEq
  | Not
  | Gate
  | Sin
  | Cos
  | Product
  | Exp
  | LessThan
  | GreaterThan
  | Max
  | Min
  | NegSum
  | Square
  | PosClamp
  | NegClamp
  | Sqrt
deriving DecidableEq, Repr

/-- Abstract numeric primitives backing the elementwise operators; stands
for the C library functions the source calls. -/
structure MathPrims where
  sinFn : Int → Int
  cosFn : Int → Int
  expFn : Int → Int
  sqrtFn : Int → Int

/-- One graph node: the fields of C++ `class GraphNode`, with
`shared_ptr`/raw pointers replaced by node identifiers. -/
structure GraphNode where
  /-- The input nodes to this node (ordered, positional). -/
  inputs : List Nat
  /-- The operator of this node; `none` is the C++ null function pointer. -/
  function_pointer : Option NodeFun
  /-- The default output of this node. -/
  default_output : Int
  /-- The nodes connected to this node's output (reverse index). -/
  outputs : List Nat
  /-- The cached output of this node. -/
  cached_output : Int
  /-- Whether the cached output is valid. -/
  cached_output_valid : Bool
deriving DecidableEq, Repr

/-- The default-constructed node: no inputs, null function pointer,
default output 0, cache invalid. -/
def GraphNode.init : GraphNode :=
  { inputs := [], function_pointer := none, default_output := 0,
    outputs := [], cached_output := 0, cached_output_valid := false }

instance : Inhabited GraphNode := ⟨GraphNode.init⟩

/-- The heap: every node identifier maps to a node record. -/
def GraphState := Nat → GraphNode

/-- Write one node of the heap. -/
def setNode (st : GraphState) (i : Nat) (n : GraphNode) : GraphState :=
  Function.update st i n

/-- Mark node `i` invalid (the `cached_output_valid = false` write at the
top of `RecursiveInvalidateCache`). -/
def setInvalid (st : GraphState) (i : Nat) : GraphState :=
  setNode st i { st i with cached_output_valid := false }

/-- Fold of a state transformer over a list of node ids (the range-for
loop of `RecursiveInvalidateCache`). -/
def invalidateEachF (go : GraphState → Nat → GraphState) :
    GraphState → List Nat → GraphState
  | st, [] => st
  | st, j :: rest => invalidateEachF go (go st j) rest

/-- `GraphNode::RecursiveInvalidateCache`: invalidate this node's cache
and, recursively, every node in its `outputs` list.  `fuel` bounds the
recursion depth (the C++ call stack); on a DAG any fuel exceeding the
graph depth is sufficient. -/
def RecursiveInvalidateCache : Nat → GraphState → Nat → GraphState
  | 0, st, _ => st
  | fuel + 1, st, i =>
    invalidateEachF (RecursiveInvalidateCache fuel) (setInvalid st i) ((st i).outputs)

/-- `GraphNode::AddOutput`: push `j` onto the node's `outputs`. -/
def GraphNode.AddOutput (n : GraphNode) (j : Nat) : GraphNode :=
  { n with outputs := n.outputs ++ [j] }

/-- `GraphNode::SetFunctionPointer`: store the operator, then invalidate
this node and its dependents. -/
def SetFunctionPointer (fuel : Nat) (st : GraphState) (i : Nat) (f : Option NodeFun) :
    GraphState :=
  RecursiveInvalidateCache fuel (setNode st i { st i with function_pointer := f }) i

/-- `GraphNode::AddInput`: append `j` to `i`'s inputs, register `i` in
`j`'s outputs, then invalidate. -/
def AddInput (fuel : Nat) (st : GraphState) (i j : Nat) : GraphState :=
  let st1 := setNode st i { st i with inputs := (st i).inputs ++ [j] }
  let st2 := setNode st1 j ((st1 j).AddOutput i)
  RecursiveInvalidateCache fuel st2 i

/-- `GraphNode::AddInputs`: append the ids in `js` to `i`'s inputs, then
invalidate.  (The source does not register `i` in the new inputs'
`outputs`.) -/
def AddInputs (fuel : Nat) (st : GraphState) (i : Nat) (js : List Nat) : GraphState :=
  RecursiveInvalidateCache fuel (setNode st i { st i with inputs := (st i).inputs ++ js }) i

/-- `GraphNode::SetInputs`: replace `i`'s input list, then invalidate.
(The source does not register `i` in the new inputs' `outputs`.) -/
def SetInputs (fuel : Nat) (st : GraphState) (i : Nat) (js : List Nat) : GraphState :=
  RecursiveInvalidateCache fuel (setNode st i { st i with inputs := js }) i

/-- `GraphNode::SetDefaultOutput`: write the default only when it changes,
and invalidate only in that case. -/
def SetDefaultOutput (fuel : Nat) (st : GraphState) (i : Nat) (v : Int) : GraphState :=
  if (st i).default_output ≠ v then
    RecursiveInvalidateCache fuel (setNode st i { st i with default_output := v }) i
  else st

/-- `GraphNode::IsCacheValid`. -/
def IsCacheValid (st : GraphState) (i : Nat) : Bool :=
  (st i).cached_output_valid

/-- `GraphNode::GetDefaultOutput`. -/
def GetDefaultOutput (st : GraphState) (i : Nat) : Int :=
  (st i).default_output

/-- Iterated frontier of the dependent (`outputs`) relation: all
endpoints of `outputs`-edge paths of length exactly `k` starting in `f`. -/
def outFrontier (st : GraphState) : Nat → List Nat → List Nat
  | 0, f => f
  | k + 1, f => outFrontier st k (f.flatMap fun z => (st z).outputs)

/-- All endpoints of directed `outputs`-edge paths of length exactly `k`
starting at `x`; the transitive closure of the dependent relation is the
union over `k`. -/
def reachExact (st : GraphState) (k x : Nat) : List Nat :=
  outFrontier st k [x]

/-- `y` depends (directly or transitively, reflexively) on `x` through
output edges. -/
def OutputReachable (st : GraphState) (x y : Nat) : Prop :=
  ∃ k, y ∈ reachExact st k x

/-- Iterated frontier of the consumed (`inputs`) relation. -/
def inFrontier (st : GraphState) : Nat → List Nat → List Nat
  | 0, f => f
  | k + 1, f => inFrontier st k (f.flatMap fun z => (st z).inputs)

/-- All endpoints of directed `inputs`-edge paths of length exactly `k`
starting at `x`. -/
def inputReachExact (st : GraphState) (k x : Nat) : List Nat :=
  inFrontier st k [x]

/-- `y` is consumed (directly or transitively, in at least one step) by
`x` through input edges. -/
def InputReachable (st : GraphState) (x y : Nat) : Prop :=
  ∃ k, y ∈ inputReachExact st (k + 1) x

/-- `std::ranges::is_sorted` over adjacent pairs: true when no later
element compares `comp`-before its predecessor. -/
def is_sortedAdj (comp : Int → Int → Bool) : List Int → Bool
  | [] => true
  | [_] => true
  | a :: b :: rest => !(comp b a) && is_sortedAdj comp (b :: rest)

/-- Evaluate a list of node ids in order with evaluator `go`, threading
the heap (the `std::transform` loops of the two `GetInputValues`). -/
def EvalEachF (go : GraphState → Nat → Int × GraphState) :
    GraphState → List Nat → List Int × GraphState
  | st, [] => ([], st)
  | st, j :: rest =>
    let v := go st j
    let vs := EvalEachF go v.2 rest
    (v.1 :: vs.1, vs.2)

/-- `GraphNode::GetInputValues()` with evaluator `go`: the outputs of all
inputs, in order. -/
def GetInputValuesF (go : GraphState → Nat → Int × GraphState)
    (st : GraphState) (i : Nat) : List Int × GraphState :=
  EvalEachF go st (st i).inputs

/-- `GraphNode::GetInputValues(indices)` with evaluator `go`: `none` when
the largest requested index is at or beyond the input count, otherwise
the outputs of the inputs at exactly those indices, in index order. -/
def GetInputValuesIdxF (go : GraphState → Nat → Int × GraphState)
    (st : GraphState) (i : Nat) (indices : List Nat) :
    Option (List Int) × GraphState :=
  let max_index := indices.foldl Nat.max 0
  if (st i).inputs.length ≤ max_index then (none, st)
  else
    let vs := EvalEachF go st (indices.map fun k => (st i).inputs.getD k 0)
    (some vs.1, vs.2)

/-- Dispatch of the node functions of the source on node `i`, with
evaluator `go` for pulling input values: each pulls the needed input
values, then combines them. -/
def ApplyFunF (p : MathPrims) (go : GraphState → Nat → Int × GraphState)
    (st : GraphState) (i : Nat) : NodeFun → Int × GraphState
  | .Sum =>
    let vs := GetInputValuesF go st i
    (vs.1.foldl (· + ·) 0, vs.2)
  | .And =>
    let vs := GetInputValuesF go st i
    (if vs.1.any (fun v => v == 0) then 0 else 1, vs.2)
  | .AnyEq =>
    let vs := GetInputValuesF go st i
    (match vs.1 with
     | [] => (st i).default_output
     | v0 :: rest => if rest.any (fun v => v == v0) then 1 else 0, vs.2)
  | .Not =>
    let vs := GetInputValuesIdxF go st i [0]
    (match vs.1 with
     | none => (st i).default_output
     | some l => if l.getD 0 0 == 0 then 1 else 0, vs.2)
  | .Gate =>
    let vs := GetInputValuesIdxF go st i [0, 1]
    (match vs.1 with
     | none => (st i).default_output
     | some l => if l.getD 1 0 != 0 then l.getD 0 0 else 0, vs.2)
  | .Sin =>
    let vs := GetInputValuesF go st i
    ((vs.1.map p.sinFn).foldl (· + ·) 0, vs.2)
  | .Cos =>
    let vs := GetInputValuesF go st i
    ((vs.1.map p.cosFn).foldl (· + ·) 0, vs.2)
  | .Product =>
    let vs := GetInputValuesF go st i
    (vs.1.foldl (· * ·) 1, vs.2)
  | .Exp =>
    let vs := GetInputValuesF go st i
    ((vs.1.map p.expFn).foldl (· + ·) 0, vs.2)
  | .LessThan =>
    let vs := GetInputValuesF go st i
    (if is_sortedAdj (fun x y => decide (x < y)) vs.1 then 1 else 0, vs.2)
  | .GreaterThan =>
    let vs := GetInputValuesF go st i
    (if is_sortedAdj (fun x y => decide (y < x)) vs.1 then 1 else 0, vs.2)
  | .Max =>
    let vs := GetInputValuesF go st i
    (match vs.1 with
     | [] => (st i).default_output
     | v0 :: rest => rest.foldl max v0, vs.2)
  | .Min =>
    let vs := GetInputValuesF go st i
    (match vs.1 with
     | [] => (st i).default_output
     | v0 :: rest => rest.foldl min v0, vs.2)
  | .NegSum =>
    let vs := GetInputValuesF go st i
    (-(vs.1.foldl (· + ·) 0), vs.2)
  | .Square =>
    let vs := GetInputValuesF go st i
    ((vs.1.map (fun v => v * v)).foldl (· + ·) 0, vs.2)
  | .PosClamp =>
    let vs := GetInputValuesF go st i
    ((vs.1.map (fun v => max 0 v)).foldl (· + ·) 0, vs.2)
  | .NegClamp =>
    let vs := GetInputValuesF go st i
    ((vs.1.map (fun v => min 0 v)).foldl (· + ·) 0, vs.2)
  | .Sqrt =>
    let vs := GetInputValuesF go st i
    ((vs.1.map (fun v => p.sqrtFn (max 0 v))).foldl (· + ·) 0, vs.2)

/-- `GraphNode::GetOutput`: return the cached output when valid;
otherwise compute (operator if set, else default), cache, mark valid.
Evaluation threads the heap because pulling input values fills input
caches; `fuel` bounds the recursion depth. -/
def GetOutput (p : MathPrims) : Nat → GraphState → Nat → Int × GraphState
  | 0, st, _ => (0, st)
  | fuel + 1, st, i =>
    if (st i).cached_output_valid then ((st i).cached_output, st)
    else
      let rs :=
        match (st i).function_pointer with
        | none => ((st i).default_output, st)
        | some f => ApplyFunF p (GetOutput p fuel) st i f
      (rs.1, setNode rs.2 i
        { rs.2 i with cached_output := rs.1, cached_output_valid := true })

/-- `ApplyFunF` at recursion depth `fuel`. -/
def ApplyFun (p : MathPrims) (fuel : Nat) (st : GraphState) (i : Nat)
    (f : NodeFun) : Int × GraphState :=
  ApplyFunF p (GetOutput p fuel) st i f

/-- `GraphNode::GetInputValues()` at recursion depth `fuel`. -/
def GetInputValues (p : MathPrims) (fuel : Nat) (st : GraphState) (i : Nat) :
    List Int × GraphState :=
  GetInputValuesF (GetOutput p fuel) st i

/-- `GraphNode::GetInputValues(indices)` at recursion depth `fuel`. -/
def GetInputValuesIdx (p : MathPrims) (fuel : Nat) (st : GraphState) (i : Nat)
    (indices : List Nat) : Option (List Int) × GraphState :=
  GetInputValuesIdxF (GetOutput p fuel) st i indices

/-- The `FUNCTION_SET` table of the source: the null function pointer,
then the eighteen operators in source order. -/
def FUNCTION_SET : List (Option NodeFun) :=
  [none, some .Sum, some .And, some .AnyEq, some .Not, some .Gate, some .Sin,
   some .Cos, some .Product, some .Exp, some .LessThan, some .GreaterThan,
   some .Max, some .Min, some .NegSum, some .Square, some .PosClamp,
   some .NegClamp, some .Sqrt]

/-- Inert primitives for concrete examples; no example consults them. -/
def noPrims : MathPrims :=
  { sinFn := fun _ => 0, cosFn := fun _ => 0, expFn := fun _ => 0, sqrtFn := fun _ => 0 }

/-- A constant node: `GraphNode(double)` of the source. -/
def constNode (v : Int) : GraphNode :=
  { GraphNode.init with default_output := v }

/-- A node bound to an operator, with a preset input list. -/
def opNode (f : NodeFun) (ins : List Nat) : GraphNode :=
  { GraphNode.init with function_pointer := some f, inputs := ins }

/-- Heap holding the listed nodes at ids `0, 1, ...`; all other ids hold
default-constructed nodes. -/
def stateOfList (l : List GraphNode) : GraphState :=
  fun i => l.getD i GraphNode.init

/-- The empty heap: every id holds a default-constructed node. -/
def stInit : GraphState := fun _ => GraphNode.init

/-- Scenario of the specification: `A(default=2)`, `B(default=5)`,
`C(operator=Sum)` at ids 0, 1, 2. -/
def stC4Base : GraphState :=
  stateOfList [constNode 2, constNode 5, opNode .Sum []]

/-- The scenario after wiring `C`'s inputs `[A, B]` with `AddInput`. -/
def stC4Wired : GraphState :=
  AddInput 5 (AddInput 5 stC4Base 2 0) 2 1

/-- The scenario after evaluating `C.GetOutput()`. -/
def stC4Evaluated : GraphState :=
  (GetOutput noPrims 5 stC4Wired 2).2

/-- The scenario after mutating `A`'s default to 10. -/
def stC4Mutated : GraphState :=
  SetDefaultOutput 5 stC4Evaluated 0 10

/-- The scenario wired with `AddInputs` instead of `AddInput`. -/
def stC1Wired : GraphState :=
  AddInputs 5 stC4Base 2 [0, 1]

/-- The `AddInputs`-wired scenario after evaluating `C.GetOutput()`. -/
def stC1Evaluated : GraphState :=
  (GetOutput noPrims 5 stC1Wired 2).2

/-- The `AddInputs`-wired scenario after mutating `A`'s default to 10. -/
def stC1Mutated : GraphState :=
  SetDefaultOutput 5 stC1Evaluated 0 10

/-- Constants 2, 3, -1 feeding a `Sum` node. -/
def stSumEx : GraphState :=
  stateOfList [constNode 2, constNode 3, constNode (-1), opNode .Sum [0, 1, 2]]

/-- Constants 1, 2, 0 feeding an `And` node. -/
def stAndEx : GraphState :=
  stateOfList [constNode 1, constNode 2, constNode 0, opNode .And [0, 1, 2]]

/-- Constants 7, 1 feeding a `Gate` node. -/
def stGateEx : GraphState :=
  stateOfList [constNode 7, constNode 1, opNode .Gate [0, 1]]

/-- Constants 1, 2, 2, 5 feeding a `LessThan` node. -/
def stLtEx : GraphState :=
  stateOfList [constNode 1, constNode 2, constNode 2, constNode 5,
    opNode .LessThan [0, 1, 2, 3]]

/-- Constants 10, 20 feeding a two-input node, for indexed access. -/
def stIdxEx : GraphState :=
  stateOfList [constNode 10, constNode 20, opNode .Sum [0, 1]]

/-- A constant feeding a `Gate` node that has only one input. -/
def stGateOne : GraphState :=
  stateOfList [constNode 7, { opNode .Gate [0] with default_output := 9 }]

/-- Two wired nodes with valid caches: node 0 feeds node 1 (consistent
`inputs`/`outputs`), both caches valid. -/
def stChain : GraphState :=
  stateOfList
    [{ GraphNode.init with outputs := [1], cached_output := 42, cached_output_valid := true },
     { GraphNode.init with inputs := [0], cached_output := 7, cached_output_valid := true }]

/-- Heaps `st ⟶ stq` where only cache-validity flags changed, and only
from valid to invalid: what `RecursiveInvalidateCache` may do. -/
def FlagsOnlyLowered (st stq : GraphState) : Prop :=
  ∀ j, (stq j).inputs = (st j).inputs ∧
    (stq j).outputs = (st j).outputs ∧
    (stq j).function_pointer = (st j).function_pointer ∧
    (stq j).default_output = (st j).default_output ∧
    (stq j).cached_output = (st j).cached_output ∧
    ((stq j).cached_output_valid = true → (st j).cached_output_valid = true)

/-! ### Basic state lemmas -/

theorem EvalEachF_length (go : GraphState → Nat → Int × GraphState) :
    ∀ (l : List Nat) (st : GraphState), (EvalEachF go st l).1.length = l.length
  | [], _ => rfl
  | j :: rest, st => by
    simp [EvalEachF, EvalEachF_length go rest]

theorem is_sortedAdj_le_iff :
    ∀ l : List Int, is_sortedAdj (fun x y => decide (x < y)) l = true ↔ List.Chain' (· ≤ ·) l
  | [] => by simp [is_sortedAdj]
  | [a] => by simp [is_sortedAdj]
  | a :: b :: rest => by
    rw [is_sortedAdj, Bool.and_eq_true, is_sortedAdj_le_iff (b :: rest), List.chain'_cons]
    constructor
    · rintro ⟨h1, h2⟩
      refine ⟨?_, h2⟩
      simpa [Int.not_lt] using h1
    · rintro ⟨hab, h2⟩
      refine ⟨?_, h2⟩
      simpa [Int.not_lt] using hab

theorem is_sortedAdj_short (comp : Int → Int → Bool) :
    ∀ l : List Int, l.length ≤ 1 → is_sortedAdj comp l = true
  | [], _ => rfl
  | [_], _ => rfl
  | _ :: _ :: _, h => by simp at h

theorem foldl_max_seed_le : ∀ (l : List Nat) (a : Nat), a ≤ l.foldl Nat.max a
  | [], _ => Nat.le_refl _
  | c :: rest, a =>
    Nat.le_trans (Nat.le_max_left a c) (foldl_max_seed_le rest (Nat.max a c))

theorem le_foldl_max : ∀ (l : List Nat) (a b : Nat), b ∈ l → b ≤ l.foldl Nat.max a
  | [], _, b, hb => absurd hb (List.not_mem_nil b)
  | c :: rest, a, b, hb => by
    rcases List.mem_cons.mp hb with h | h
    · subst h
      exact Nat.le_trans (Nat.le_max_right a b) (foldl_max_seed_le rest (Nat.max a b))
    · exact le_foldl_max rest (Nat.max a c) b h

theorem foldl_max_lt {n : Nat} :
    ∀ (l : List Nat) (a : Nat), a < n → (∀ b ∈ l, b < n) → l.foldl Nat.max a < n
  | [], _, ha, _ => ha
  | c :: rest, a, ha, hb =>
    foldl_max_lt rest (Nat.max a c)
      (Nat.max_lt.mpr ⟨ha, hb c (List.mem_cons_self c rest)⟩)
      (fun d hd => hb d (List.mem_cons_of_mem c hd))

theorem setNode_apply (st : GraphState) (i : Nat) (n : GraphNode) (j : Nat) :
    setNode st i n j = if j = i then n else st j := by
  by_cases h : j = i
  · subst h; simp [setNode, Function.update_same]
  · rw [if_neg h]; simp [setNode, Function.update_noteq h]

theorem flagsOnlyLowered_refl (st : GraphState) : FlagsOnlyLowered st st :=
  fun _ => ⟨rfl, rfl, rfl, rfl, rfl, fun h => h⟩

theorem flagsOnlyLowered_trans {a b c : GraphState}
    (h1 : FlagsOnlyLowered a b) (h2 : FlagsOnlyLowered b c) : FlagsOnlyLowered a c := by
  intro j
  obtain ⟨e1, e2, e3, e4, e5, e6⟩ := h1 j
  obtain ⟨f1, f2, f3, f4, f5, f6⟩ := h2 j
  exact ⟨f1.trans e1, f2.trans e2, f3.trans e3, f4.trans e4, f5.trans e5,
    fun h => e6 (f6 h)⟩

theorem setInvalid_lowered (st : GraphState) (i : Nat) :
    FlagsOnlyLowered st (setInvalid st i) := by
  intro j
  by_cases h : j = i
  · subst h; simp [setInvalid, setNode_apply]
  · simp [setInvalid, setNode_apply, h]

theorem stays_false {st stq : GraphState} (h : FlagsOnlyLowered st stq) {j : Nat}
    (hf : (st j).cached_output_valid = false) : (stq j).cached_output_valid = false := by
  cases hv : (stq j).cached_output_valid
  · rfl
  · have := (h j).2.2.2.2.2 hv
    rw [hf] at this
    exact this.symm

theorem invalidateEachF_lowered (go : GraphState → Nat → GraphState)
    (hgo : ∀ s j, FlagsOnlyLowered s (go s j)) :
    ∀ (l : List Nat) (st : GraphState), FlagsOnlyLowered st (invalidateEachF go st l)
  | [], st => flagsOnlyLowered_refl st
  | j :: rest, st =>
    flagsOnlyLowered_trans (hgo st j) (invalidateEachF_lowered go hgo rest (go st j))

theorem RIC_lowered :
    ∀ (fuel : Nat) (st : GraphState) (i : Nat),
      FlagsOnlyLowered st (RecursiveInvalidateCache fuel st i)
  | 0, st, _ => flagsOnlyLowered_refl st
  | fuel + 1, st, i =>
    flagsOnlyLowered_trans (setInvalid_lowered st i)
      (invalidateEachF_lowered _ (RIC_lowered fuel) _ _)

/-! ### Frontier algebra -/

theorem outFrontier_nil (st : GraphState) : ∀ k, outFrontier st k [] = []
  | 0 => rfl
  | k + 1 => by
    simpa [outFrontier] using outFrontier_nil st k

theorem outFrontier_add (st : GraphState) (a b : Nat) (f : List Nat) :
    outFrontier st (a + b) f = outFrontier st b (outFrontier st a f) := by
  induction a generalizing f with
  | zero => simp [outFrontier]
  | succ a ih =>
    have : a + 1 + b = (a + b) + 1 := by omega
    rw [this]
    show outFrontier st (a + b) _ = _
    rw [ih]
    rfl

theorem outFrontier_congr {st stq : GraphState}
    (h : ∀ j, (stq j).outputs = (st j).outputs) :
    ∀ (k : Nat) (f : List Nat), outFrontier stq k f = outFrontier st k f := by
  intro k
  induction k with
  | zero => intro f; rfl
  | succ k ih =>
    intro f
    show outFrontier stq k _ = outFrontier st k _
    rw [ih]
    congr 1
    exact List.flatMap_congr (fun z _ => h z)

theorem mem_outFrontier (st : GraphState) :
    ∀ (k : Nat) (f : List Nat) (y : Nat),
      y ∈ outFrontier st k f ↔ ∃ z ∈ f, y ∈ outFrontier st k [z] := by
  intro k
  induction k with
  | zero =>
    intro f y
    simp [outFrontier]
  | succ k ih =>
    intro f y
    show y ∈ outFrontier st k _ ↔ ∃ z ∈ f, y ∈ outFrontier st k _
    rw [ih]
    constructor
    · rintro ⟨w, hw, hy⟩
      rw [List.mem_flatMap] at hw
      obtain ⟨z, hz, hwz⟩ := hw
      refine ⟨z, hz, ?_⟩
      rw [ih]
      exact ⟨w, by simpa using hwz, hy⟩
    · rintro ⟨z, hz, hy⟩
      rw [ih] at hy
      obtain ⟨w, hwz, hy⟩ := hy
      refine ⟨w, ?_, hy⟩
      rw [List.mem_flatMap]
      exact ⟨z, hz, by simpa using hwz⟩

theorem reachExact_succ (st : GraphState) (k x : Nat) :
    reachExact st (k + 1) x = outFrontier st k ((st x).outputs) := by
  show outFrontier st k _ = _
  congr 1
  simp

theorem mem_reachExact_succ {st : GraphState} {k x y z : Nat}
    (hz : z ∈ (st x).outputs) (hy : y ∈ reachExact st k z) :
    y ∈ reachExact st (k + 1) x := by
  rw [reachExact_succ, mem_outFrontier]
  exact ⟨z, hz, hy⟩

theorem reachExact_congr {st stq : GraphState}
    (h : ∀ j, (stq j).outputs = (st j).outputs) (k x : Nat) :
    reachExact stq k x = reachExact st k x :=
  outFrontier_congr h k [x]

theorem reach_empty_of_bound {st : GraphState} {fuel x : Nat}
    (h : reachExact st fuel x = []) :
    ∀ k, fuel ≤ k → reachExact st k x = [] := by
  intro k hk
  have hdecomp : k = fuel + (k - fuel) := by omega
  rw [hdecomp]
  show outFrontier st _ [x] = []
  rw [outFrontier_add]
  rw [reachExact] at h
  rw [h, outFrontier_nil]

theorem exists_small_reach {st : GraphState} {fuel x y : Nat}
    (hb : reachExact st fuel x = []) (hr : OutputReachable st x y) :
    ∃ k, k < fuel ∧ y ∈ reachExact st k x := by
  obtain ⟨k, hk⟩ := hr
  rcases Nat.lt_or_ge k fuel with h | h
  · exact ⟨k, h, hk⟩
  · rw [reach_empty_of_bound hb k h] at hk
    simp at hk

/-! ### Invalidation coverage and frame -/

theorem invalidateEachF_covers (f y : Nat)
    (hstep : ∀ (st : GraphState) (z k : Nat), k < f → y ∈ reachExact st k z →
      ((RecursiveInvalidateCache f st z) y).cached_output_valid = false) :
    ∀ (l : List Nat) (st : GraphState) (z k : Nat), z ∈ l → k < f →
      y ∈ reachExact st k z →
      ((invalidateEachF (RecursiveInvalidateCache f) st l) y).cached_output_valid = false := by
  intro l
  induction l with
  | nil => intro st z k hz; exact absurd hz (List.not_mem_nil z)
  | cons w rest ih =>
    intro st z k hz hk hy
    show ((invalidateEachF _ (RecursiveInvalidateCache f st w) rest) y).cached_output_valid = false
    rcases List.mem_cons.mp hz with hzw | hzr
    · subst hzw
      have h1 := hstep st z k hk hy
      exact stays_false (invalidateEachF_lowered _ (RIC_lowered f) rest _) h1
    · have hout : ∀ j, ((RecursiveInvalidateCache f st w) j).outputs = (st j).outputs :=
        fun j => ((RIC_lowered f st w) j).2.1
      have hy1 : y ∈ reachExact (RecursiveInvalidateCache f st w) k z := by
        rw [reachExact_congr hout]; exact hy
      exact ih _ z k hzr hk hy1

theorem RIC_covers :
    ∀ (fuel k x y : Nat) (st : GraphState), k < fuel → y ∈ reachExact st k x →
      ((RecursiveInvalidateCache fuel st x) y).cached_output_valid = false := by
  intro fuel
  induction fuel with
  | zero => intro k x y st hk; exact absurd hk (Nat.not_lt_zero k)
  | succ f ih =>
    intro k x y st _ hy
    show ((invalidateEachF _ (setInvalid st x) ((st x).outputs)) y).cached_output_valid = false
    cases k with
    | zero =>
      have hyx : y = x := by simpa [reachExact, outFrontier] using hy
      subst hyx
      have h1 : ((setInvalid st y) y).cached_output_valid = false := by
        simp [setInvalid, setNode_apply]
      exact stays_false (invalidateEachF_lowered _ (RIC_lowered f) _ _) h1
    | succ k =>
      rw [reachExact_succ, mem_outFrontier] at hy
      obtain ⟨z, hz, hyz⟩ := hy
      have hout : ∀ j, ((setInvalid st x) j).outputs = (st j).outputs :=
        fun j => ((setInvalid_lowered st x) j).2.1
      have hyz1 : y ∈ reachExact (setInvalid st x) k z := by
        rw [reachExact_congr hout]; exact hyz
      have hk : k < f := by
        rename_i hk1
        omega
      exact invalidateEachF_covers f y (fun s w m hm hw => ih m w y s hm hw)
        ((st x).outputs) (setInvalid st x) z k hz hk hyz1

theorem invalidateEachF_frame (f y : Nat)
    (hstep : ∀ (st : GraphState) (z : Nat), (∀ k, k < f → y ∉ reachExact st k z) →
      (RecursiveInvalidateCache f st z) y = st y) :
    ∀ (l : List Nat) (st : GraphState),
      (∀ z ∈ l, ∀ k, k < f → y ∉ reachExact st k z) →
      (invalidateEachF (RecursiveInvalidateCache f) st l) y = st y := by
  intro l
  induction l with
  | nil => intro st _; rfl
  | cons w rest ih =>
    intro st h
    show (invalidateEachF _ (RecursiveInvalidateCache f st w) rest) y = st y
    have h1 : (RecursiveInvalidateCache f st w) y = st y :=
      hstep st w (h w (List.mem_cons_self w rest))
    have hout : ∀ j, ((RecursiveInvalidateCache f st w) j).outputs = (st j).outputs :=
      fun j => ((RIC_lowered f st w) j).2.1
    have h2 : ∀ z ∈ rest, ∀ k, k < f →
        y ∉ reachExact (RecursiveInvalidateCache f st w) k z := by
      intro z hz k hk
      rw [reachExact_congr hout]
      exact h z (List.mem_cons_of_mem w hz) k hk
    rw [ih _ h2, h1]

theorem RIC_frame :
    ∀ (fuel : Nat) (st : GraphState) (x y : Nat),
      (∀ k, k < fuel → y ∉ reachExact st k x) →
      (RecursiveInvalidateCache fuel st x) y = st y := by
  intro fuel
  induction fuel with
  | zero => intro st x y _; rfl
  | succ f ih =>
    intro st x y h
    have hyx : y ≠ x := by
      have h0 := h 0 (Nat.succ_pos f)
      simp [reachExact, outFrontier] at h0
      exact h0
    have hsi : (setInvalid st x) y = st y := by
      rw [setInvalid, setNode_apply, if_neg hyx]
    have hout : ∀ j, ((setInvalid st x) j).outputs = (st j).outputs :=
      fun j => ((setInvalid_lowered st x) j).2.1
    show (invalidateEachF _ (setInvalid st x) ((st x).outputs)) y = st y
    rw [invalidateEachF_frame f y (fun s z hz => ih s z y hz) _ _ ?_, hsi]
    intro z hz k hk hy
    rw [reachExact_congr hout] at hy
    exact h (k + 1) (by omega) (mem_reachExact_succ hz hy)

/-! ### Mutator-level master lemmas -/

theorem mutate_covers (fuel x y : Nat) (stm : GraphState)
    (hb : reachExact (RecursiveInvalidateCache fuel stm x) fuel x = [])
    (hr : OutputReachable (RecursiveInvalidateCache fuel stm x) x y) :
    ((RecursiveInvalidateCache fuel stm x) y).cached_output_valid = false := by
  obtain ⟨k, hk, hy⟩ := exists_small_reach hb hr
  have hout : ∀ j, ((RecursiveInvalidateCache fuel stm x) j).outputs = (stm j).outputs :=
    fun j => ((RIC_lowered fuel stm x) j).2.1
  rw [reachExact_congr hout] at hy
  exact RIC_covers fuel k x y stm hk hy

theorem mutate_frame (fuel x y : Nat) (stm : GraphState)
    (hnr : ∀ k, k < fuel → y ∉ reachExact (RecursiveInvalidateCache fuel stm x) k x) :
    (RecursiveInvalidateCache fuel stm x) y = stm y := by
  have hout : ∀ j, ((RecursiveInvalidateCache fuel stm x) j).outputs = (stm j).outputs :=
    fun j => ((RIC_lowered fuel stm x) j).2.1
  refine RIC_frame fuel stm x y ?_
  intro k hk
  rw [← reachExact_congr hout]
  exact hnr k hk

theorem setNode_cache_eq (st : GraphState) (i : Nat) (n : GraphNode)
    (h1 : n.cached_output_valid = (st i).cached_output_valid)
    (h2 : n.cached_output = (st i).cached_output) (y : Nat) :
    ((setNode st i n) y).cached_output_valid = (st y).cached_output_valid ∧
    ((setNode st i n) y).cached_output = (st y).cached_output := by
  rw [setNode_apply]
  by_cases h : y = i
  · subst h; simp [h1, h2]
  · simp [h]

/-! ### Claim theorems -/

/-- Claim C2: for every node `x` and every mutation of `x`
(`SetFunctionPointer`, `AddInput`, `AddInputs`, `SetInputs`, or a
value-changing `SetDefaultOutput`), immediately after the mutation and
before any re-evaluation, `IsCacheValid` returns false for `x` and for
every node reachable from `x` by transitively following `x`'s output
edges (`OutputReachable`, which is reflexive, so `y = x` is included).
The fuel hypothesis `reachExact … fuel x = []` states that the chosen
recursion fuel exceeds the depth of the dependent subgraph — the
source's DAG precondition on its unbounded recursion. -/
theorem C2_mutation_invalidates_dependents (fuel x y : Nat) (st : GraphState)
    (f : Option NodeFun) (j : Nat) (js : List Nat) (v : Int) :
    (reachExact (SetFunctionPointer fuel st x f) fuel x = [] →
      OutputReachable (SetFunctionPointer fuel st x f) x y →
      IsCacheValid (SetFunctionPointer fuel st x f) y = false) ∧
    (reachExact (AddInput fuel st x j) fuel x = [] →
      OutputReachable (AddInput fuel st x j) x y →
      IsCacheValid (AddInput fuel st x j) y = false) ∧
    (reachExact (AddInputs fuel st x js) fuel x = [] →
      OutputReachable (AddInputs fuel st x js) x y →
      IsCacheValid (AddInputs fuel st x js) y = false) ∧
    (reachExact (SetInputs fuel st x js) fuel x = [] →
      OutputReachable (SetInputs fuel st x js) x y →
      IsCacheValid (SetInputs fuel st x js) y = false) ∧
    ((st x).default_output ≠ v →
      reachExact (SetDefaultOutput fuel st x v) fuel x = [] →
      OutputReachable (SetDefaultOutput fuel st x v) x y →
      IsCacheValid (SetDefaultOutput fuel st x v) y = false) := by
  refine ⟨?_, ?_, ?_, ?_, ?_⟩
  · intro hb hr; exact mutate_covers fuel x y _ hb hr
  · intro hb hr; exact mutate_covers fuel x y _ hb hr
  · intro hb hr; exact mutate_covers fuel x y _ hb hr
  · intro hb hr; exact mutate_covers fuel x y _ hb hr
  · intro hne hb hr
    rw [SetDefaultOutput, if_pos hne] at hb hr ⊢
    exact mutate_covers fuel x y _ hb hr

/-- Witness for C2 on a concrete two-node chain (node 0 feeds node 1,
both caches valid): each of the five mutations of node 0 leaves node 1's
cache invalid. -/
theorem C2_witness :
    IsCacheValid (SetFunctionPointer 3 stChain 0 (some .Sum)) 1 = false ∧
    IsCacheValid (AddInput 3 stChain 0 2) 1 = false ∧
    IsCacheValid (AddInputs 3 stChain 0 [2]) 1 = false ∧
    IsCacheValid (SetInputs 3 stChain 0 [2]) 1 = false ∧
    IsCacheValid (SetDefaultOutput 3 stChain 0 10) 1 = false := by
  have h := C2_mutation_invalidates_dependents 3 0 1 stChain (some .Sum) 2 [2] 10
  exact ⟨h.1 (by decide) ⟨1, by decide⟩,
    h.2.1 (by decide) ⟨1, by decide⟩,
    h.2.2.1 (by decide) ⟨1, by decide⟩,
    h.2.2.2.1 (by decide) ⟨1, by decide⟩,
    h.2.2.2.2 (by decide) (by decide) ⟨1, by decide⟩⟩

/-- Claim C10: invalidation never travels along input edges — for every
node `x`, each mutation of `x` leaves the cache-validity flag and cached
value of every node `y` that `x` reaches through its own input edges
unchanged.  The hypothesis `∀ k < fuel, y ∉ reachExact … k x` states
that `y` is not a dependent of `x` (in a DAG an input-ancestor never
is); invalidation walks only output edges, so `y` is untouched. -/
theorem C10_input_ancestors_untouched (fuel x y : Nat) (st : GraphState)
    (f : Option NodeFun) (j : Nat) (js : List Nat) (v : Int)
    (hin : InputReachable st x y) :
    ((∀ k, k < fuel → y ∉ reachExact (SetFunctionPointer fuel st x f) k x) →
      ((SetFunctionPointer fuel st x f) y).cached_output_valid = (st y).cached_output_valid ∧
      ((SetFunctionPointer fuel st x f) y).cached_output = (st y).cached_output) ∧
    ((∀ k, k < fuel → y ∉ reachExact (AddInput fuel st x j) k x) →
      ((AddInput fuel st x j) y).cached_output_valid = (st y).cached_output_valid ∧
      ((AddInput fuel st x j) y).cached_output = (st y).cached_output) ∧
    ((∀ k, k < fuel → y ∉ reachExact (AddInputs fuel st x js) k x) →
      ((AddInputs fuel st x js) y).cached_output_valid = (st y).cached_output_valid ∧
      ((AddInputs fuel st x js) y).cached_output = (st y).cached_output) ∧
    ((∀ k, k < fuel → y ∉ reachExact (SetInputs fuel st x js) k x) →
      ((SetInputs fuel st x js) y).cached_output_valid = (st y).cached_output_valid ∧
      ((SetInputs fuel st x js) y).cached_output = (st y).cached_output) ∧
    ((∀ k, k < fuel → y ∉ reachExact (SetDefaultOutput fuel st x v) k x) →
      ((SetDefaultOutput fuel st x v) y).cached_output_valid = (st y).cached_output_valid ∧
      ((SetDefaultOutput fuel st x v) y).cached_output = (st y).cached_output) := by
  refine ⟨?_, ?_, ?_, ?_, ?_⟩
  · intro hnr
    have hfr : (SetFunctionPointer fuel st x f) y =
        (setNode st x { st x with function_pointer := f }) y :=
      mutate_frame fuel x y _ hnr
    rw [hfr]
    exact setNode_cache_eq st x { st x with function_pointer := f } rfl rfl y
  · intro hnr
    have hb := setNode_cache_eq st x { st x with inputs := (st x).inputs ++ [j] } rfl rfl y
    have hm := setNode_cache_eq (setNode st x { st x with inputs := (st x).inputs ++ [j] }) j
      (((setNode st x { st x with inputs := (st x).inputs ++ [j] }) j).AddOutput x) rfl rfl y
    have hfr : (AddInput fuel st x j) y =
        (setNode (setNode st x { st x with inputs := (st x).inputs ++ [j] }) j
          (((setNode st x { st x with inputs := (st x).inputs ++ [j] }) j).AddOutput x)) y :=
      mutate_frame fuel x y _ hnr
    rw [hfr]
    exact ⟨hm.1.trans hb.1, hm.2.trans hb.2⟩
  · intro hnr
    have hfr : (AddInputs fuel st x js) y =
        (setNode st x { st x with inputs := (st x).inputs ++ js }) y :=
      mutate_frame fuel x y _ hnr
    rw [hfr]
    exact setNode_cache_eq st x { st x with inputs := (st x).inputs ++ js } rfl rfl y
  · intro hnr
    have hfr : (SetInputs fuel st x js) y =
        (setNode st x { st x with inputs := js }) y :=
      mutate_frame fuel x y _ hnr
    rw [hfr]
    exact setNode_cache_eq st x { st x with inputs := js } rfl rfl y
  · intro hnr
    by_cases hne : (st x).default_output ≠ v
    · rw [SetDefaultOutput, if_pos hne] at hnr ⊢
      have hfr : (RecursiveInvalidateCache fuel
          (setNode st x { st x with default_output := v }) x) y =
          (setNode st x { st x with default_output := v }) y :=
        mutate_frame fuel x y _ hnr
      rw [hfr]
      exact setNode_cache_eq st x { st x with default_output := v } rfl rfl y
    · rw [SetDefaultOutput, if_neg hne]
      exact ⟨rfl, rfl⟩

/-- Witness for C10 on the concrete chain: node 1 consumes node 0, so
node 0 is input-reachable from node 1; mutating node 1 five ways leaves
node 0's valid flag and cached value untouched. -/
theorem C10_witness :
    ((SetFunctionPointer 3 stChain 1 (some .Sum)) 0).cached_output_valid =
      (stChain 0).cached_output_valid ∧
    ((AddInput 3 stChain 1 2) 0).cached_output = (stChain 0).cached_output ∧
    ((AddInputs 3 stChain 1 [2]) 0).cached_output_valid = (stChain 0).cached_output_valid ∧
    ((SetInputs 3 stChain 1 [2]) 0).cached_output = (stChain 0).cached_output ∧
    ((SetDefaultOutput 3 stChain 1 10) 0).cached_output_valid =
      (stChain 0).cached_output_valid := by
  have h := C10_input_ancestors_untouched 3 1 0 stChain (some .Sum) 2 [2] 10 ⟨0, by decide⟩
  exact ⟨(h.1 (by decide)).1,
    (h.2.1 (by decide)).2,
    (h.2.2.1 (by decide)).1,
    (h.2.2.2.1 (by decide)).2,
    (h.2.2.2.2 (by decide)).1⟩

/-- Claim C3: `GetOutput` returns the cached value without recomputation
or any state change when the cache is valid; otherwise it computes the
result — invoking the node's operator on the node if one is set, using
the node's default scalar if not — stores it as the cached value, marks
the cache valid, and returns it; hence after any `GetOutput` call,
`IsCacheValid` is true.  (`fuel + 1` says only that the C++ call did not
overflow its stack.) -/
theorem C3_getOutput_caching (p : MathPrims) (fuel : Nat) (st : GraphState) (i : Nat) :
    ((st i).cached_output_valid = true →
      GetOutput p (fuel + 1) st i = ((st i).cached_output, st)) ∧
    ((st i).cached_output_valid = false → (st i).function_pointer = none →
      GetOutput p (fuel + 1) st i =
        ((st i).default_output,
         setNode st i { st i with cached_output := (st i).default_output,
                                  cached_output_valid := true })) ∧
    (∀ f, (st i).cached_output_valid = false → (st i).function_pointer = some f →
      GetOutput p (fuel + 1) st i =
        ((ApplyFun p fuel st i f).1,
         setNode (ApplyFun p fuel st i f).2 i
           { (ApplyFun p fuel st i f).2 i with
               cached_output := (ApplyFun p fuel st i f).1,
               cached_output_valid := true })) ∧
    IsCacheValid (GetOutput p (fuel + 1) st i).2 i = true := by
  refine ⟨?_, ?_, ?_, ?_⟩
  · intro hv
    simp [GetOutput, hv]
  · intro hv hf
    simp [GetOutput, hv, hf]
  · intro f hv hf
    simp [GetOutput, hv, hf, ApplyFun]
  · by_cases hv : (st i).cached_output_valid
    · simp [GetOutput, hv, IsCacheValid]
    · cases hf : (st i).function_pointer with
      | none => simp [GetOutput, hv, hf, IsCacheValid, setNode_apply]
      | some f => simp [GetOutput, hv, hf, IsCacheValid, setNode_apply]

/-- Witness for C3 on concrete nodes: a valid-cache read returns the
cached value and leaves the heap untouched; an invalid constant node
caches its default and is valid afterwards. -/
theorem C3_witness :
    GetOutput noPrims 1 stChain 1 = ((7 : Int), stChain) ∧
    (GetOutput noPrims 1 stC4Base 0).1 = 2 ∧
    IsCacheValid (GetOutput noPrims 1 stC4Base 0).2 0 = true := by
  have h1 := C3_getOutput_caching noPrims 0 stChain 1
  have h2 := C3_getOutput_caching noPrims 0 stC4Base 0
  refine ⟨?_, ?_, h2.2.2.2⟩
  · have := h1.1 (by decide)
    rw [this]
    rfl
  · have := h2.2.1 (by decide) (by decide)
    rw [this]
    rfl

/-- Claim C4: in the scenario that builds `A` with default 2, `B` with
default 5 and `C` with operator `Sum` and inputs `[A, B]`:
`C.GetOutput()` returns 7; after setting `A`'s default to 10,
`C.IsCacheValid()` is false and `C.GetOutput()` returns 15. -/
theorem C4_end_to_end_scenario :
    (GetOutput noPrims 5 stC4Wired 2).1 = 7 ∧
    IsCacheValid stC4Mutated 2 = false ∧
    (GetOutput noPrims 5 stC4Mutated 2).1 = 15 := by
  refine ⟨by decide, by decide, by decide⟩

/-- Claim C8: `SetDefaultOutput` with a value equal to the current
default changes no state at all — the heap is returned unchanged, so no
invalidation fires and every node's flag and cached value are exactly as
before. -/
theorem C8_noop_default_write (fuel : Nat) (st : GraphState) (i : Nat) (v : Int)
    (h : (st i).default_output = v) :
    SetDefaultOutput fuel st i v = st := by
  rw [SetDefaultOutput, if_neg]
  simp [h]

/-- Witness for C8: rewriting `A`'s default with its current value 2
returns the identical heap. -/
theorem C8_witness : SetDefaultOutput 3 stC4Base 0 2 = stC4Base :=
  C8_noop_default_write 3 stC4Base 0 2 (by decide)

/-- Claim C5: the operators compute the catalog semantics on the current
input values — `Sum` is the sum of all input values (0 for zero inputs),
`Product` the product (1 for zero inputs), `And` is 1 iff no input value
equals 0 (vacuously 1 for zero inputs), `Gate` is `input[0]` when
`input[1] ≠ 0` and 0 otherwise, `LessThan` is 1 iff the input values are
sorted non-decreasingly (vacuously 1 for 0 or 1 inputs) — with the
specification's concrete examples evaluated end to end. -/
theorem C5_operator_semantics (p : MathPrims) (fuel : Nat) (st : GraphState) (i : Nat) :
    ((ApplyFun p fuel st i .Sum).1 = ((GetInputValues p fuel st i).1).sum) ∧
    ((ApplyFun p fuel st i .Product).1 = ((GetInputValues p fuel st i).1).prod) ∧
    ((ApplyFun p fuel st i .And).1 =
      if ∀ v ∈ (GetInputValues p fuel st i).1, v ≠ 0 then 1 else 0) ∧
    (∀ a b rest, (GetInputValuesIdx p fuel st i [0, 1]).1 = some (a :: b :: rest) →
      (ApplyFun p fuel st i .Gate).1 = if b ≠ 0 then a else 0) ∧
    ((ApplyFun p fuel st i .LessThan).1 =
      if ((GetInputValues p fuel st i).1).Sorted (· ≤ ·) then 1 else 0) ∧
    ((st i).inputs = [] →
      (ApplyFun p fuel st i .Sum).1 = 0 ∧
      (ApplyFun p fuel st i .Product).1 = 1 ∧
      (ApplyFun p fuel st i .And).1 = 1) ∧
    ((st i).inputs.length ≤ 1 → (ApplyFun p fuel st i .LessThan).1 = 1) ∧
    (GetOutput noPrims 2 stSumEx 3).1 = 4 ∧
    (GetOutput noPrims 2 stAndEx 3).1 = 0 ∧
    (GetOutput noPrims 2 stGateEx 2).1 = 7 ∧
    (GetOutput noPrims 2 stLtEx 4).1 = 1 := by
  refine ⟨?_, ?_, ?_, ?_, ?_, ?_, ?_, by decide, by decide, by decide, by decide⟩
  · rw [List.sum_eq_foldl]
    rfl
  · rw [List.prod_eq_foldl]
    rfl
  · by_cases h : ∀ v ∈ (GetInputValues p fuel st i).1, v ≠ 0
    · rw [if_pos h]
      have hany : (GetInputValues p fuel st i).1.any (fun v => v == 0) = false := by
        rw [List.any_eq_false]
        intro v hv
        simpa using h v hv
      show (if (GetInputValues p fuel st i).1.any (fun v => v == 0) then (0 : Int) else 1) = 1
      rw [hany]
      rfl
    · rw [if_neg h]
      push_neg at h
      obtain ⟨v, hv, hv0⟩ := h
      have hany : (GetInputValues p fuel st i).1.any (fun v => v == 0) = true := by
        rw [List.any_eq_true]
        exact ⟨v, hv, by simpa using hv0⟩
      show (if (GetInputValues p fuel st i).1.any (fun v => v == 0) then (0 : Int) else 1) = 0
      rw [hany]
      rfl
  · intro a b rest h
    show (match (GetInputValuesIdx p fuel st i [0, 1]).1 with
      | none => (st i).default_output
      | some l => if l.getD 1 0 != 0 then l.getD 0 0 else 0) = if b ≠ 0 then a else 0
    rw [h]
    by_cases hb : b = 0
    · subst hb
      simp [List.getD]
    · simp [List.getD, hb]
  · by_cases hs : ((GetInputValues p fuel st i).1).Sorted (· ≤ ·)
    · rw [if_pos hs]
      have hsort : is_sortedAdj (fun x y => decide (x < y)) (GetInputValues p fuel st i).1 = true :=
        (is_sortedAdj_le_iff _).mpr (List.chain'_iff_pairwise.mpr hs)
      show (if is_sortedAdj (fun x y => decide (x < y)) (GetInputValues p fuel st i).1
        then (1 : Int) else 0) = 1
      rw [hsort]
      rfl
    · rw [if_neg hs]
      have hsort : is_sortedAdj (fun x y => decide (x < y)) (GetInputValues p fuel st i).1 = false := by
        rw [Bool.eq_false_iff]
        intro hc
        exact hs (List.chain'_iff_pairwise.mp ((is_sortedAdj_le_iff _).mp hc))
      show (if is_sortedAdj (fun x y => decide (x < y)) (GetInputValues p fuel st i).1
        then (1 : Int) else 0) = 0
      rw [hsort]
      rfl
  · intro h
    refine ⟨?_, ?_, ?_⟩ <;>
      simp [ApplyFun, ApplyFunF, GetInputValues, GetInputValuesF, h, EvalEachF]
  · intro h
    have hlen : ((GetInputValues p fuel st i).1).length ≤ 1 := by
      rw [show (GetInputValues p fuel st i).1 =
        (EvalEachF (GetOutput p fuel) st (st i).inputs).1 from rfl]
      rw [EvalEachF_length]
      exact h
    have hsort := is_sortedAdj_short (fun x y => decide (x < y)) _ hlen
    show (if is_sortedAdj (fun x y => decide (x < y)) (GetInputValues p fuel st i).1
      then (1 : Int) else 0) = 1
    rw [hsort]
    rfl

/-- Witness for C5: the `Gate` conditional applied at the concrete
two-input gate example, and the zero-input fallbacks applied at an
unwired node. -/
theorem C5_witness :
    ((ApplyFun noPrims 1 stGateEx 2 .Gate).1 = if (1 : Int) ≠ 0 then (7 : Int) else 0) ∧
    (ApplyFun noPrims 1 stInit 0 .Sum).1 = 0 ∧
    (ApplyFun noPrims 1 stInit 0 .Product).1 = 1 ∧
    (ApplyFun noPrims 1 stInit 0 .And).1 = 1 ∧
    (ApplyFun noPrims 1 stInit 0 .LessThan).1 = 1 := by
  have h1 := C5_operator_semantics noPrims 1 stGateEx 2
  have h2 := C5_operator_semantics noPrims 1 stInit 0
  have hz := h2.2.2.2.2.2.1 (by decide)
  exact ⟨h1.2.2.2.1 7 1 [] (by decide), hz.1, hz.2.1, hz.2.2,
    h2.2.2.2.2.2.2.1 (by decide)⟩

/-- Claim C6: an operator requiring minimum arity `k` (`Not` with k = 1,
`Gate` with k = 2, and the empty-input cases of `AnyEq`, `Max`, `Min`),
invoked on a node with fewer than `k` inputs, returns exactly the node's
configured default value (total functions: no error is possible). -/
theorem C6_arity_fallback (p : MathPrims) (fuel : Nat) (st : GraphState) (i : Nat) :
    ((st i).inputs.length < 1 → (ApplyFun p fuel st i .Not).1 = (st i).default_output) ∧
    ((st i).inputs.length < 2 → (ApplyFun p fuel st i .Gate).1 = (st i).default_output) ∧
    ((st i).inputs = [] →
      (ApplyFun p fuel st i .AnyEq).1 = (st i).default_output ∧
      (ApplyFun p fuel st i .Max).1 = (st i).default_output ∧
      (ApplyFun p fuel st i .Min).1 = (st i).default_output) := by
  refine ⟨?_, ?_, ?_⟩
  · intro h
    have hnil : (st i).inputs = [] := List.eq_nil_of_length_eq_zero (Nat.lt_one_iff.mp h)
    simp [ApplyFun, ApplyFunF, GetInputValuesIdx, GetInputValuesIdxF, hnil]
  · intro h
    have h1 : (st i).inputs.length ≤ 1 := by omega
    simp [ApplyFun, ApplyFunF, GetInputValuesIdx, GetInputValuesIdxF, h1]
  · intro h
    refine ⟨?_, ?_, ?_⟩ <;>
      simp [ApplyFun, ApplyFunF, GetInputValues, GetInputValuesF, h, EvalEachF]

/-- Witness for C6: `Not` on a node with no inputs and `Gate` on a node
with one input both return that node's default (9 for the gate node);
`AnyEq`, `Max`, `Min` on an unwired node return its default 0. -/
theorem C6_witness :
    (ApplyFun noPrims 1 stInit 0 .Not).1 = 0 ∧
    (ApplyFun noPrims 1 stGateOne 1 .Gate).1 = 9 ∧
    (ApplyFun noPrims 1 stInit 0 .AnyEq).1 = 0 ∧
    (ApplyFun noPrims 1 stInit 0 .Max).1 = 0 ∧
    (ApplyFun noPrims 1 stInit 0 .Min).1 = 0 := by
  have h1 := C6_arity_fallback noPrims 1 stInit 0
  have h2 := C6_arity_fallback noPrims 1 stGateOne 1
  have hz := h1.2.2 (by decide)
  exact ⟨h1.1 (by decide), h2.2.1 (by decide), hz.1, hz.2.1, hz.2.2⟩

/-- Claim C7: for every node and non-empty list of requested positional
indices, the indexed `GetInputValues` returns no value (and leaves the
heap untouched — no partial read) when any requested index is at or
beyond the current input count, and otherwise returns the full ordered
list of the inputs' output values at exactly those indices (one value
per requested index, in request order — illustrated by the reordering
example `[1, 0]`). -/
theorem C7_indexed_input_values (p : MathPrims) (fuel : Nat) (st : GraphState)
    (i : Nat) (indices : List Nat) (hne : indices ≠ []) :
    ((∃ idx ∈ indices, (st i).inputs.length ≤ idx) →
      GetInputValuesIdx p fuel st i indices = (none, st)) ∧
    ((∀ idx ∈ indices, idx < (st i).inputs.length) →
      GetInputValuesIdx p fuel st i indices =
        (some (EvalEachF (GetOutput p fuel) st
            (indices.map fun k => (st i).inputs.getD k 0)).1,
         (EvalEachF (GetOutput p fuel) st
            (indices.map fun k => (st i).inputs.getD k 0)).2) ∧
      ((EvalEachF (GetOutput p fuel) st
          (indices.map fun k => (st i).inputs.getD k 0)).1).length = indices.length) ∧
    (GetInputValuesIdx noPrims 1 stIdxEx 2 [1, 0]).1 = some [20, 10] ∧
    GetInputValuesIdx noPrims 1 stIdxEx 2 [0, 2] = (none, stIdxEx) := by
  refine ⟨?_, ?_, by decide, by rfl⟩
  · rintro ⟨idx, hidx, hlen⟩
    have hmax : (st i).inputs.length ≤ indices.foldl Nat.max 0 :=
      Nat.le_trans hlen (le_foldl_max indices 0 idx hidx)
    show GetInputValuesIdxF (GetOutput p fuel) st i indices = (none, st)
    rw [GetInputValuesIdxF]
    simp [if_pos hmax]
  · intro h
    obtain ⟨c, hc⟩ := List.exists_mem_of_ne_nil indices hne
    have hpos : 0 < (st i).inputs.length := Nat.lt_of_le_of_lt (Nat.zero_le c) (h c hc)
    have hmax : indices.foldl Nat.max 0 < (st i).inputs.length :=
      foldl_max_lt indices 0 hpos h
    refine ⟨?_, by rw [EvalEachF_length, List.length_map]⟩
    show GetInputValuesIdxF (GetOutput p fuel) st i indices = _
    rw [GetInputValuesIdxF]
    simp [Nat.not_le.mpr hmax]

/-- Witness for C7: on the two-input node (values 10 and 20), requesting
indices `[1, 0]` yields exactly `[20, 10]`, and requesting `[0, 2]`
yields no value with the heap unchanged. -/
theorem C7_witness :
    GetInputValuesIdx noPrims 1 stIdxEx 2 [0, 2] = (none, stIdxEx) ∧
    (GetInputValuesIdx noPrims 1 stIdxEx 2 [1, 0]).1 = some [20, 10] := by
  have h := C7_indexed_input_values noPrims 1 stIdxEx 2 [0, 2] (by decide)
  exact ⟨h.1 ⟨2, by decide, by decide⟩, h.2.2.1⟩

/-- Claim C9: `FUNCTION_SET` is a zero-indexed ordered table of 19
entries whose entry 0 is the null operator — a node carrying it returns
its default from `GetOutput` — and whose remaining 18 entries are the
catalog operators in the fixed source order `Sum, And, AnyEq, Not, Gate,
Sin, Cos, Product, Exp, LessThan, GreaterThan, Max, Min, NegSum, Square,
PosClamp, NegClamp, Sqrt`. -/
theorem C9_function_set_registry (p : MathPrims) (fuel : Nat) (st : GraphState) (i : Nat) :
    ((st i).function_pointer = FUNCTION_SET.getD 0 (some .Sum) →
      (st i).cached_output_valid = false →
      (GetOutput p (fuel + 1) st i).1 = (st i).default_output) ∧
    FUNCTION_SET.length = 19 ∧
    FUNCTION_SET.getD 0 (some .Sum) = none ∧
    FUNCTION_SET.getD 1 none = some .Sum ∧
    FUNCTION_SET.getD 2 none = some .And ∧
    FUNCTION_SET.getD 3 none = some .AnyEq ∧
    FUNCTION_SET.getD 4 none = some .Not ∧
    FUNCTION_SET.getD 5 none = some .Gate ∧
    FUNCTION_SET.getD 6 none = some .Sin ∧
    FUNCTION_SET.getD 7 none = some .Cos ∧
    FUNCTION_SET.getD 8 none = some .Product ∧
    FUNCTION_SET.getD 9 none = some .Exp ∧
    FUNCTION_SET.getD 10 none = some .LessThan ∧
    FUNCTION_SET.getD 11 none = some .GreaterThan ∧
    FUNCTION_SET.getD 12 none = some .Max ∧
    FUNCTION_SET.getD 13 none = some .Min ∧
    FUNCTION_SET.getD 14 none = some .NegSum ∧
    FUNCTION_SET.getD 15 none = some .Square ∧
    FUNCTION_SET.getD 16 none = some .PosClamp ∧
    FUNCTION_SET.getD 17 none = some .NegClamp ∧
    FUNCTION_SET.getD 18 none = some .Sqrt := by
  refine ⟨?_, rfl, rfl, rfl, rfl, rfl, rfl, rfl, rfl, rfl, rfl, rfl, rfl, rfl, rfl,
    rfl, rfl, rfl, rfl, rfl, rfl⟩
  intro hf hv
  have hf0 : (st i).function_pointer = none := hf
  simp [GetOutput, hv, hf0]

/-- Witness for C9: a fresh node (null operator, cache invalid, default
0) returns its default from `GetOutput`. -/
theorem C9_witness : (GetOutput noPrims 1 stInit 0).1 = (stInit 0).default_output :=
  (C9_function_set_registry noPrims 0 stInit 0).1 (by decide) (by decide)

/-- Claim C1 is violated by the code: `AddInput` registers the mutated
node as a dependent of the new input node, but `AddInputs` and
`SetInputs` append/replace the `inputs` list without ever updating the
new input nodes' `outputs` lists, so the inputs/outputs inverse
invariant breaks after `AddInputs 1 [0]` (node 0 is in node 1's inputs,
node 1 is absent from node 0's outputs).  Consequently, in the A/B/C
scenario wired with `AddInputs`, mutating `A`'s default leaves `C`'s
cache valid and `C.GetOutput()` stays 7 instead of 15. -/
theorem C1_counterexample :
    (0 ∈ ((AddInputs 3 stInit 1 [0]) 1).inputs ∧
     1 ∉ ((AddInputs 3 stInit 1 [0]) 0).outputs) ∧
    (0 ∈ ((SetInputs 3 stInit 1 [0]) 1).inputs ∧
     1 ∉ ((SetInputs 3 stInit 1 [0]) 0).outputs) ∧
    (0 ∈ ((AddInput 3 stInit 1 0) 1).inputs ∧
     1 ∈ ((AddInput 3 stInit 1 0) 0).outputs) ∧
    (GetOutput noPrims 5 stC1Wired 2).1 = 7 ∧
    IsCacheValid stC1Mutated 2 = true ∧
    (GetOutput noPrims 5 stC1Mutated 2).1 = 7 := by
  exact ⟨⟨by decide, by decide⟩, ⟨by decide, by decide⟩, ⟨by decide, by decide⟩,
    by decide, by decide, by decide⟩

end Cowboys
